import Mathlib

/-!
Shallow embedding of the contact/notes data-model core of the repository
(src/models.py and src/notes.py).  Python strings are modelled as `List Char`
over their character data; Python exceptions are modelled with `Except` for
operations whose partial state is discarded on failure (classmethod
deserializers) and with an `Option Err × state` pair for in-place mutators,
where the second component is the state left behind when the exception
propagates.  Machine-independent: all arithmetic is on `Nat`/`Int`.
-/

abbrev Str := List Char

/-- Error taxonomy.  The source raises `ValueError`/`KeyError` with distinct
messages; each raise site maps to the spec's `ValidationError`/`NotFoundError`
according to whether it reports a malformed value or a failed lookup. -/
inductive Err where
  | validation : String → Err
  | notFound : String → Err
deriving DecidableEq

/-- Python `str.isdigit()` restricted to the model's character set:
true iff the string is nonempty and every character is a decimal digit. -/
def pyIsDigitStr (s : Str) : Bool := !s.isEmpty && s.all Char.isDigit

/-- Value of a single decimal digit character. -/
def digitToNat (c : Char) : Nat := c.toNat - 48

/-- Decimal digit character for a value below ten. -/
def digitChar (n : Nat) : Char := Char.ofNat (48 + n)

/-- Reads a decimal digit string most-significant first. -/
def digitsToNat (l : Str) : Nat := l.foldl (fun a c => a * 10 + digitToNat c) 0

/-- Two-digit zero-padded rendering, as `strftime` produces for `%d`/`%m`. -/
def pad2 (n : Nat) : Str := [digitChar (n / 10 % 10), digitChar (n % 10)]

/-- Four-digit zero-padded rendering, as `strftime` produces for `%Y`. -/
def pad4 (n : Nat) : Str :=
  [digitChar (n / 1000 % 10), digitChar (n / 100 % 10), digitChar (n / 10 % 10),
    digitChar (n % 10)]

/-- Proleptic-Gregorian leap-year test (`calendar`/`datetime` rule). -/
def isLeap (y : Nat) : Bool := (y % 4 == 0 && !(y % 100 == 0)) || y % 400 == 0

/-- Length of a month, as `datetime.date` validates it. -/
def daysInMonth (y m : Nat) : Nat :=
  if m = 2 then (if isLeap y then 29 else 28)
  else if m = 4 ∨ m = 6 ∨ m = 9 ∨ m = 11 then 30
  else 31

/-- A calendar date as `datetime.date` stores it. -/
structure Date where
  year : Nat
  month : Nat
  day : Nat
deriving DecidableEq

/-- Structural well-formedness of the month/day fields (no upper year bound). -/
def Date.ok (d : Date) : Bool :=
  1 ≤ d.year && 1 ≤ d.month && d.month ≤ 12 && 1 ≤ d.day &&
    d.day ≤ daysInMonth d.year d.month

/-- Exactly the dates `datetime.date` accepts: well-formed and within
`MINYEAR = 1 .. MAXYEAR = 9999`. -/
def Date.valid (d : Date) : Bool := d.ok && d.year ≤ 9999

/-- `strftime("%d.%m.%Y")` on a date. -/
def formatDMY (d : Date) : Str :=
  pad2 d.day ++ ('.' :: (pad2 d.month ++ ('.' :: pad4 d.year)))

/-- Reads a run of 1 to `maxLen` leading digits, as a `strptime` numeric
directive does, returning its value and the remaining input. -/
def scanNum (maxLen : Nat) (s : Str) : Option (Nat × Str) :=
  let ds := s.takeWhile Char.isDigit
  if 1 ≤ ds.length ∧ ds.length ≤ maxLen then
    some (digitsToNat ds, s.dropWhile Char.isDigit)
  else none

/-- Consumes one expected literal character. -/
def expectChar (c : Char) (s : Str) : Option Str :=
  match s with
  | [] => none
  | x :: r => if x = c then some r else none

/-- `datetime.strptime(value, "%d.%m.%Y").date()`: day and month take one or
two digits, the year up to four, separators are literal dots, the whole input
must be consumed, and the resulting date must be a valid `datetime.date`. -/
def parseDMY (s : Str) : Option Date :=
  match scanNum 2 s with
  | none => none
  | some (dayV, s1) =>
    match expectChar '.' s1 with
    | none => none
    | some s2 =>
      match scanNum 2 s2 with
      | none => none
      | some (monV, s3) =>
        match expectChar '.' s3 with
        | none => none
        | some s4 =>
          match scanNum 4 s4 with
          | none => none
          | some (yearV, s5) =>
            if s5 = [] then
              let d : Date := ⟨yearV, monV, dayV⟩
              if d.valid then some d else none
            else none

/-- A timestamp at the one-second resolution of the persisted format
`%Y-%m-%d %H:%M:%S`. -/
structure DateTime where
  date : Date
  hour : Nat
  minute : Nat
  second : Nat
deriving DecidableEq

/-- Field ranges accepted by `strptime("%Y-%m-%d %H:%M:%S")`. -/
def DateTime.valid (t : DateTime) : Bool :=
  t.date.valid && t.hour ≤ 23 && t.minute ≤ 59 && t.second ≤ 59

/-- `strftime("%Y-%m-%d %H:%M:%S")` on a timestamp. -/
def formatYMDHMS (t : DateTime) : Str :=
  pad4 t.date.year ++ ('-' :: (pad2 t.date.month ++ ('-' :: (pad2 t.date.day ++
    (' ' :: (pad2 t.hour ++ (':' :: (pad2 t.minute ++ (':' :: pad2 t.second)))))))))

/-- `datetime.strptime(value, "%Y-%m-%d %H:%M:%S")`. -/
def parseYMDHMS (s : Str) : Option DateTime :=
  match scanNum 4 s with
  | none => none
  | some (yearV, s1) =>
    match expectChar '-' s1 with
    | none => none
    | some s2 =>
      match scanNum 2 s2 with
      | none => none
      | some (monV, s3) =>
        match expectChar '-' s3 with
        | none => none
        | some s4 =>
          match scanNum 2 s4 with
          | none => none
          | some (dayV, s5) =>
            match expectChar ' ' s5 with
            | none => none
            | some s6 =>
              match scanNum 2 s6 with
              | none => none
              | some (hourV, s7) =>
                match expectChar ':' s7 with
                | none => none
                | some s8 =>
                  match scanNum 2 s8 with
                  | none => none
                  | some (minV, s9) =>
                    match expectChar ':' s9 with
                    | none => none
                    | some s10 =>
                      match scanNum 2 s10 with
                      | none => none
                      | some (secV, s11) =>
                        if s11 = [] then
                          let t : DateTime := ⟨⟨yearV, monV, dayV⟩, hourV, minV, secV⟩
                          if t.valid then some t else none
                        else none

/-- Digit-by-digit rendering with structural fuel (`fuel` strictly exceeds
the argument, so it never runs out). -/
def natToStrAux : Nat → Nat → Str
  | 0, _ => []
  | fuel + 1, n =>
      if n < 10 then [digitChar n]
      else natToStrAux fuel (n / 10) ++ [digitChar (n % 10)]

/-- `str(n)` for a natural number, and the digits `int(...)` accepts. -/
def natToStr (n : Nat) : Str := natToStrAux (n + 1) n

/-- `int(s)` restricted to plain digit strings (the only shape the
serializers emit). -/
def intParse (s : Str) : Option Nat :=
  if pyIsDigitStr s then some (digitsToNat s) else none

lemma digitChar_isDigit {k : Nat} (h : k < 10) : (digitChar k).isDigit = true := by
  interval_cases k <;> decide

lemma digitToNat_digitChar {k : Nat} (h : k < 10) : digitToNat (digitChar k) = k := by
  interval_cases k <;> decide

lemma pad2_all_digits (n : Nat) : ∀ c ∈ pad2 n, c.isDigit = true := by
  intro c hc
  simp only [pad2, List.mem_cons, List.not_mem_nil, or_false] at hc
  rcases hc with h | h <;> subst h <;> exact digitChar_isDigit (by omega)

lemma pad4_all_digits (n : Nat) : ∀ c ∈ pad4 n, c.isDigit = true := by
  intro c hc
  simp only [pad4, List.mem_cons, List.not_mem_nil, or_false] at hc
  rcases hc with h | h | h | h <;> subst h <;> exact digitChar_isDigit (by omega)

lemma digitsToNat_pad2 {n : Nat} (h : n < 100) : digitsToNat (pad2 n) = n := by
  simp only [digitsToNat, pad2, List.foldl_cons, List.foldl_nil,
    digitToNat_digitChar (show n / 10 % 10 < 10 by omega),
    digitToNat_digitChar (show n % 10 < 10 by omega)]
  omega

lemma digitsToNat_pad4 {n : Nat} (h : n < 10000) : digitsToNat (pad4 n) = n := by
  simp only [digitsToNat, pad4, List.foldl_cons, List.foldl_nil,
    digitToNat_digitChar (show n / 1000 % 10 < 10 by omega),
    digitToNat_digitChar (show n / 100 % 10 < 10 by omega),
    digitToNat_digitChar (show n / 10 % 10 < 10 by omega),
    digitToNat_digitChar (show n % 10 < 10 by omega)]
  omega

lemma takeWhile_all {p : Char → Bool} {l : Str} (h : ∀ x ∈ l, p x = true) :
    l.takeWhile p = l := by
  induction l with
  | nil => rfl
  | cons a t ih =>
      simp [List.takeWhile_cons, h a (by simp), ih fun x hx => h x (List.mem_cons_of_mem a hx)]

lemma dropWhile_all {p : Char → Bool} {l : Str} (h : ∀ x ∈ l, p x = true) :
    l.dropWhile p = [] := by
  induction l with
  | nil => rfl
  | cons a t ih =>
      simp [List.dropWhile_cons, h a (by simp), ih fun x hx => h x (List.mem_cons_of_mem a hx)]

lemma takeWhile_append_stop {p : Char → Bool} {l r : Str} {c : Char}
    (hl : ∀ x ∈ l, p x = true) (hc : p c = false) :
    (l ++ c :: r).takeWhile p = l := by
  induction l with
  | nil => simp [List.takeWhile_cons, hc]
  | cons a t ih =>
      rw [List.cons_append]
      simp [List.takeWhile_cons, hl a (by simp), ih fun x hx => hl x (List.mem_cons_of_mem a hx)]

lemma dropWhile_append_stop {p : Char → Bool} {l r : Str} {c : Char}
    (hl : ∀ x ∈ l, p x = true) (hc : p c = false) :
    (l ++ c :: r).dropWhile p = c :: r := by
  induction l with
  | nil => simp [List.dropWhile_cons, hc]
  | cons a t ih =>
      rw [List.cons_append]
      simp [List.dropWhile_cons, hl a (by simp), ih fun x hx => hl x (List.mem_cons_of_mem a hx)]

lemma scanNum_exact {maxLen : Nat} {ds : Str} (h1 : ∀ x ∈ ds, x.isDigit = true)
    (h2 : 1 ≤ ds.length) (h3 : ds.length ≤ maxLen) :
    scanNum maxLen ds = some (digitsToNat ds, []) := by
  simp [scanNum, takeWhile_all h1, dropWhile_all h1, h2, h3]

lemma scanNum_stop {maxLen : Nat} {ds r : Str} {c : Char}
    (h1 : ∀ x ∈ ds, x.isDigit = true) (hc : c.isDigit = false)
    (h2 : 1 ≤ ds.length) (h3 : ds.length ≤ maxLen) :
    scanNum maxLen (ds ++ c :: r) = some (digitsToNat ds, c :: r) := by
  simp [scanNum, takeWhile_append_stop h1 hc, dropWhile_append_stop h1 hc, h2, h3]

lemma daysInMonth_le (y m : Nat) : daysInMonth y m ≤ 31 := by
  unfold daysInMonth
  split
  · split <;> omega
  · split <;> omega

lemma date_valid_bounds {d : Date} (h : d.valid = true) :
    1 ≤ d.year ∧ d.year ≤ 9999 ∧ 1 ≤ d.month ∧ d.month ≤ 12 ∧ 1 ≤ d.day ∧
      d.day ≤ daysInMonth d.year d.month := by
  simp only [Date.valid, Date.ok, Bool.and_eq_true, decide_eq_true_eq] at h
  tauto

/-- `strptime` inverts `strftime` on every valid date: the persisted
`DD.MM.YYYY` birthday form deserializes to the exact original date. -/
theorem parseDMY_formatDMY {d : Date} (h : d.valid = true) :
    parseDMY (formatDMY d) = some d := by
  obtain ⟨hy1, hy2, hm1, hm2, hd1, hd2⟩ := date_valid_bounds h
  have hdle : d.day < 100 := by have := daysInMonth_le d.year d.month; omega
  have hmle : d.month < 100 := by omega
  have hyle : d.year < 10000 := by omega
  rw [formatDMY, parseDMY]
  rw [scanNum_stop (pad2_all_digits d.day) (by decide) (by simp [pad2]) (by simp [pad2])]
  simp only [expectChar, reduceIte]
  rw [scanNum_stop (pad2_all_digits d.month) (by decide) (by simp [pad2]) (by simp [pad2])]
  simp only [expectChar, reduceIte]
  rw [scanNum_exact (pad4_all_digits d.year) (by simp [pad4]) (by simp [pad4])]
  simp only [digitsToNat_pad2 hdle, digitsToNat_pad2 hmle, digitsToNat_pad4 hyle, reduceIte]
  have hde : (⟨d.year, d.month, d.day⟩ : Date) = d := rfl
  rw [hde, h]
  simp

lemma dateTime_valid_bounds {t : DateTime} (h : t.valid = true) :
    t.date.valid = true ∧ t.hour ≤ 23 ∧ t.minute ≤ 59 ∧ t.second ≤ 59 := by
  simp only [DateTime.valid, Bool.and_eq_true, decide_eq_true_eq] at h
  tauto

/-- `strptime` inverts `strftime` on every valid timestamp: the persisted
`YYYY-MM-DD HH:MM:SS` form deserializes to the exact original timestamp. -/
theorem parseYMDHMS_formatYMDHMS {t : DateTime} (h : t.valid = true) :
    parseYMDHMS (formatYMDHMS t) = some t := by
  obtain ⟨hd, hh, hmi, hs⟩ := dateTime_valid_bounds h
  obtain ⟨hy1, hy2, hm1, hm2, hd1, hd2⟩ := date_valid_bounds hd
  have hdle : t.date.day < 100 := by have := daysInMonth_le t.date.year t.date.month; omega
  rw [formatYMDHMS, parseYMDHMS]
  rw [scanNum_stop (pad4_all_digits t.date.year) (by decide) (by simp [pad4]) (by simp [pad4])]
  simp only [expectChar, reduceIte]
  rw [scanNum_stop (pad2_all_digits t.date.month) (by decide) (by simp [pad2]) (by simp [pad2])]
  simp only [expectChar, reduceIte]
  rw [scanNum_stop (pad2_all_digits t.date.day) (by decide) (by simp [pad2]) (by simp [pad2])]
  simp only [expectChar, reduceIte]
  rw [scanNum_stop (pad2_all_digits t.hour) (by decide) (by simp [pad2]) (by simp [pad2])]
  simp only [expectChar, reduceIte]
  rw [scanNum_stop (pad2_all_digits t.minute) (by decide) (by simp [pad2]) (by simp [pad2])]
  simp only [expectChar, reduceIte]
  rw [scanNum_exact (pad2_all_digits t.second) (by simp [pad2]) (by simp [pad2])]
  simp only [digitsToNat_pad2 hdle, digitsToNat_pad2 (show t.date.month < 100 by omega),
    digitsToNat_pad4 (show t.date.year < 10000 by omega),
    digitsToNat_pad2 (show t.hour < 100 by omega),
    digitsToNat_pad2 (show t.minute < 100 by omega),
    digitsToNat_pad2 (show t.second < 100 by omega), reduceIte]
  have hte : (⟨⟨t.date.year, t.date.month, t.date.day⟩, t.hour, t.minute, t.second⟩ : DateTime) = t := rfl
  rw [hte, h]
  simp

lemma digitsToNat_append_one (l : Str) (c : Char) :
    digitsToNat (l ++ [c]) = digitsToNat l * 10 + digitToNat c := by
  simp [digitsToNat, List.foldl_append]

lemma natToStrAux_all_digits : ∀ (fuel n : Nat), n < fuel →
    ∀ c ∈ natToStrAux fuel n, c.isDigit = true := by
  intro fuel
  induction fuel with
  | zero => intro n hn; omega
  | succ f ih =>
      intro n hn c hc
      rw [natToStrAux] at hc
      split at hc
      · simp only [List.mem_singleton] at hc
        subst hc
        exact digitChar_isDigit (by omega)
      · rename_i h
        rcases List.mem_append.mp hc with h1 | h1
        · exact ih (n / 10) (by omega) c h1
        · simp only [List.mem_singleton] at h1
          subst h1
          exact digitChar_isDigit (by omega)

lemma natToStr_all_digits (n : Nat) : ∀ c ∈ natToStr n, c.isDigit = true :=
  natToStrAux_all_digits (n + 1) n (by omega)

lemma natToStr_ne_nil (n : Nat) : natToStr n ≠ [] := by
  rw [natToStr, natToStrAux]
  split <;> simp

/-- `int(str(n)) = n`: note-id keys survive the string round trip. -/
theorem intParse_natToStr (n : Nat) : intParse (natToStr n) = some n := by
  have key : ∀ (fuel m : Nat), m < fuel → digitsToNat (natToStrAux fuel m) = m := by
    intro fuel
    induction fuel with
    | zero => intro m hm; omega
    | succ f ih =>
        intro m hm
        rw [natToStrAux]
        split
        · simp only [digitsToNat, List.foldl_cons, List.foldl_nil]
          rw [digitToNat_digitChar (by omega)]
          omega
        · rename_i h
          rw [digitsToNat_append_one, ih (m / 10) (by omega),
            digitToNat_digitChar (by omega)]
          omega
  simp [intParse, pyIsDigitStr, natToStr_ne_nil n, List.all_eq_true, List.isEmpty_iff]
  refine ⟨natToStr_all_digits n, ?_⟩
  show digitsToNat (natToStrAux (n + 1) n) = n
  exact key (n + 1) n (by omega)

theorem formatDMY_sanity : formatDMY ⟨1990, 3, 15⟩ = ("15.03.1990").data := by decide

theorem parseDMY_sanity : parseDMY (("15.03.1990").data) = some ⟨1990, 3, 15⟩ := by decide

theorem parseDMY_rejects_bad_day : parseDMY (("31.02.2020").data) = none := by decide

/-! ## Field validators (src/models.py: Phone, Email, Address, Birthday) -/

/-- `Phone.__init__`: accepts exactly the strings with `value.isdigit()` true
and length 10; the validated value is stored unchanged. -/
def mkPhone (value : Str) : Except Err Str :=
  if pyIsDigitStr value && value.length == 10 then .ok value
  else .error (Err.validation ("Phone number must be a 10-digit string of numbers."))

/-- ASCII word character of the regex class backslash-w. -/
def isWordChar (c : Char) : Bool := c.isAlphanum || c == '_'

/-- Character class of the regex local-part/domain segments: word characters,
dot, and hyphen. -/
def isWordDot (c : Char) : Bool := isWordChar c || c == '.' || c == '-'

/-- Deterministic characterization of `re.match` for the anchored pattern of
`Email.__init__`: a nonempty run of word/dot/hyphen characters, an at sign, a
nonempty run of the same class, then a final dot followed by a nonempty run of
word characters that reaches the end of the string.  The classes exclude the
at sign, so the string has exactly one; only the last dot of the domain can
start the tail because the tail admits word characters only. -/
def emailMatch (s : Str) : Bool :=
  let locPart := s.takeWhile (fun c => !(c == '@'))
  match s.dropWhile (fun c => !(c == '@')) with
  | '@' :: domain =>
      let tld := (domain.reverse.takeWhile (fun c => !(c == '.'))).reverse
      let pre := domain.take (domain.length - tld.length - 1)
      !locPart.isEmpty && locPart.all isWordDot &&
        decide (tld.length < domain.length) &&
        !pre.isEmpty && pre.all isWordDot && !tld.isEmpty && tld.all isWordChar
  | _ => false

/-- `Email.__init__`: validated by the regex or rejected. -/
def mkEmail (value : Str) : Except Err Str :=
  if emailMatch value then .ok value else .error (Err.validation ("Invalid email format"))

/-- `Address.__init__`: any nonempty string. -/
def mkAddress (value : Str) : Except Err Str :=
  if value.isEmpty then .error (Err.validation ("Address must be a non-empty string"))
  else .ok value

/-- `Birthday.__init__`: parses `DD.MM.YYYY` into a date or rejects. -/
def mkBirthday (value : Str) : Except Err Date :=
  match parseDMY value with
  | some d => .ok d
  | none => .error (Err.validation ("Invalid date format. Use DD.MM.YYYY"))

/-! ## Contact Record (src/models.py: Record) -/

/-- A `Record`: name, phone list, and the three optional fields.  The `Field`
wrapper objects of the source carry only their `value`, so each field is
modelled by that value directly. -/
structure Record where
  name : Str
  phones : List Str
  birthday : Option Date
  email : Option Str
  address : Option Str
deriving DecidableEq

/-- `Record.__init__(name)`. -/
def Record.init (name : Str) : Record :=
  { name := name, phones := [], birthday := none, email := none, address := none }

/-- In-place mutators raise and leave state behind; they are modelled as a
pair of the propagating exception (if any) and the object state afterwards. -/
abbrev Mut (α : Type) := Option Err × α

/-- `Record.add_phone`: validates, then appends. -/
def Record.add_phone (r : Record) (phone_number : Str) : Mut Record :=
  match mkPhone phone_number with
  | .ok v => (none, { r with phones := r.phones ++ [v] })
  | .error e => (some e, r)

/-- `Record.set_email`: a falsy (empty) argument is skipped silently;
otherwise the value is validated and overwrites any existing email. -/
def Record.set_email (r : Record) (email_str : Str) : Mut Record :=
  if email_str.isEmpty then (none, r)
  else
    match mkEmail email_str with
    | .ok v => (none, { r with email := some v })
    | .error e => (some e, r)

/-- `Record.set_address`: a falsy (empty) argument is skipped silently;
otherwise the value is validated and overwrites any existing address. -/
def Record.set_address (r : Record) (address_str : Str) : Mut Record :=
  if address_str.isEmpty then (none, r)
  else
    match mkAddress address_str with
    | .ok v => (none, { r with address := some v })
    | .error e => (some e, r)

/-- `Record.add_birthday` with a string argument. -/
def Record.add_birthday (r : Record) (birthday : Str) : Mut Record :=
  match mkBirthday birthday with
  | .ok d => (none, { r with birthday := some d })
  | .error e => (some e, r)

/-- The for-loop of `find_phone`: index of the first element equal to the
target, scanning left to right. -/
def findFirstIdx (target : Str) : List Str → Option Nat
  | [] => none
  | p :: rest => if p = target then some 0 else (findFirstIdx target rest).map (· + 1)

/-- `Record.find_phone`: index of the first phone whose value equals the
argument by exact string comparison (the source returns the object itself;
the index identifies the same slot). -/
def Record.find_phone (r : Record) (phone_number : Str) : Option Nat :=
  findFirstIdx phone_number r.phones

/-- `Record.edit_phone`: looks up the first slot holding `old`, raises a
not-found error if absent, otherwise validates `new` before writing it into
that slot; a validation failure leaves the list untouched. -/
def Record.edit_phone (r : Record) (old_phone_number new_phone_number : Str) : Mut Record :=
  match r.find_phone old_phone_number with
  | some i =>
      match mkPhone new_phone_number with
      | .ok v => (none, { r with phones := r.phones.set i v })
      | .error e => (some e, r)
  | none => (some (Err.notFound ("Phone number not found.")), r)

/-- `Record.__str__`. -/
def renderRecord (r : Record) : Str :=
  let phones :=
    if r.phones.isEmpty then ("phones: none").data
    else ("phones: ").data ++ List.intercalate (("; ").data) r.phones
  let birthday_info :=
    match r.birthday with
    | some b => (", birthday: ").data ++ formatDMY b
    | none => []
  let email_info :=
    match r.email with
    | some e => (", email: ").data ++ e
    | none => []
  let address_info :=
    match r.address with
    | some a => (", address: ").data ++ a
    | none => []
  ("Contact name: ").data ++ r.name ++ (", ").data ++ phones ++ birthday_info ++
    email_info ++ address_info

/-- The plain document `Record.to_dict` produces: `birthday` is the formatted
string or `None`, the other fields are the raw stored values. -/
structure RecordDoc where
  name : Str
  phones : List Str
  birthday : Option Str
  email : Option Str
  address : Option Str
deriving DecidableEq

/-- `Record.to_dict`. -/
def Record.to_dict (r : Record) : RecordDoc :=
  { name := r.name
    phones := r.phones
    birthday := r.birthday.map formatDMY
    email := r.email
    address := r.address }

/-- Adapter for calling an in-place mutator inside a deserializer: the raise
propagates and the partially built object is discarded. -/
def mutE (m : Mut Record) : Except Err Record :=
  match m with
  | (some e, _) => .error e
  | (none, r) => .ok r

/-- One optional-field step of `from_dict`: `if data.get(key):` truthiness
(absent or empty values are skipped) followed by the corresponding setter,
whose raise propagates. -/
def stepOptional (f : Record → Str → Mut Record) (record : Record) (v : Option Str) :
    Except Err Record :=
  match v with
  | some s => if s.isEmpty then pure record else mutE (f record s)
  | none => pure record

/-- `Record.from_dict`: rebuilds the record through the constructor and the
mutators, re-running every validation; `data.get` truthiness makes `None`
and the empty string both skip the optional fields. -/
def Record.from_dict (data : RecordDoc) : Except Err Record := do
  let record := Record.init data.name
  let record ← data.phones.foldlM (fun r p => mutE (r.add_phone p)) record
  let record ← stepOptional Record.add_birthday record data.birthday
  let record ← stepOptional Record.set_email record data.email
  let record ← stepOptional Record.set_address record data.address
  pure record

/-- Well-formedness of a record as its owning book maintains it: every phone
passes the phone rule, the optional fields pass their validators. -/
def Record.wf (r : Record) : Bool :=
  r.phones.all (fun p => pyIsDigitStr p && p.length == 10) &&
    (match r.birthday with | some b => b.valid | none => true) &&
    (match r.email with | some e => emailMatch e | none => true) &&
    (match r.address with | some a => !a.isEmpty | none => true)

/-! ## Calendar arithmetic backing `datetime.date` subtraction, `weekday`,
and `timedelta` addition. -/

/-- Days in the year strictly before month `m` (CPython `_days_before_month`). -/
def daysBeforeMonth (y m : Nat) : Nat :=
  (match m with
   | 1 => 0 | 2 => 31 | 3 => 59 | 4 => 90 | 5 => 120 | 6 => 151 | 7 => 181
   | 8 => 212 | 9 => 243 | 10 => 273 | 11 => 304 | 12 => 334 | _ => 0) +
  (if 3 ≤ m && isLeap y then 1 else 0)

/-- `date.toordinal()`: day number in the proleptic Gregorian calendar with
January 1 of year 1 as day 1 (CPython `_ymd2ord`). -/
def toOrdinal (d : Date) : Nat :=
  365 * (d.year - 1) + (d.year - 1) / 4 - (d.year - 1) / 100 + (d.year - 1) / 400 +
    daysBeforeMonth d.year d.month + d.day

/-- `date.weekday()`: Monday is 0, Sunday is 6. -/
def weekday (d : Date) : Nat := (toOrdinal d + 6) % 7

/-- The next calendar day. -/
def succDate (d : Date) : Date :=
  if d.day < daysInMonth d.year d.month then ⟨d.year, d.month, d.day + 1⟩
  else if d.month < 12 then ⟨d.year, d.month + 1, 1⟩
  else ⟨d.year + 1, 1, 1⟩

/-- `date + timedelta(days=n)`: advance day by day. -/
def addDays (d : Date) (n : Nat) : Date := succDate^[n] d

lemma daysInMonth_pos (y m : Nat) : 1 ≤ daysInMonth y m := by
  unfold daysInMonth
  split
  · split <;> omega
  · split <;> omega

lemma daysBeforeMonth_succ {y m : Nat} (h1 : 1 ≤ m) (h2 : m ≤ 11) :
    daysBeforeMonth y (m + 1) = daysBeforeMonth y m + daysInMonth y m := by
  interval_cases m <;>
    simp only [daysBeforeMonth, daysInMonth] <;>
    cases hl : isLeap y <;> simp [hl]

lemma isLeap_spec (y : Nat) :
    isLeap y = true ↔ (y % 4 = 0 ∧ ¬ y % 100 = 0) ∨ y % 400 = 0 := by
  simp [isLeap]

lemma succDate_ok {d : Date} (h : d.ok = true) : (succDate d).ok = true := by
  simp only [Date.ok, Bool.and_eq_true, decide_eq_true_eq] at h
  obtain ⟨⟨⟨⟨hy, hm1⟩, hm2⟩, hd1⟩, hd2⟩ := h
  unfold succDate
  split
  · rename_i hlt
    simp only [Date.ok, Bool.and_eq_true, decide_eq_true_eq]
    refine ⟨⟨⟨⟨?_, ?_⟩, ?_⟩, ?_⟩, ?_⟩ <;> omega
  · split
    · have hp := daysInMonth_pos d.year (d.month + 1)
      simp only [Date.ok, Bool.and_eq_true, decide_eq_true_eq]
      refine ⟨⟨⟨⟨?_, ?_⟩, ?_⟩, ?_⟩, ?_⟩ <;> omega
    · have hp := daysInMonth_pos (d.year + 1) 1
      simp only [Date.ok, Bool.and_eq_true, decide_eq_true_eq]
      refine ⟨⟨⟨⟨?_, ?_⟩, ?_⟩, ?_⟩, ?_⟩ <;> omega

set_option maxHeartbeats 1000000 in
lemma toOrdinal_succDate {d : Date} (h : d.ok = true) :
    toOrdinal (succDate d) = toOrdinal d + 1 := by
  simp only [Date.ok, Bool.and_eq_true, decide_eq_true_eq] at h
  obtain ⟨⟨⟨⟨hy, hm1⟩, hm2⟩, hd1⟩, hd2⟩ := h
  unfold succDate
  split
  · simp only [toOrdinal]
    omega
  · rename_i hge
    split
    · rename_i hm12
      have hdm : d.day = daysInMonth d.year d.month := by omega
      simp only [toOrdinal]
      rw [daysBeforeMonth_succ hm1 (by omega)]
      omega
    · rename_i hm12
      have hm : d.month = 12 := by omega
      have h31 : daysInMonth d.year d.month = 31 := by rw [hm]; simp [daysInMonth]
      have hdm : d.day = 31 := by omega
      have hb1 : daysBeforeMonth (d.year + 1) 1 = 0 := by simp [daysBeforeMonth]
      have hleap := isLeap_spec d.year
      cases hl : isLeap d.year
      · have hb12 : daysBeforeMonth d.year 12 = 334 := by simp [daysBeforeMonth, hl]
        rw [hl] at hleap
        simp only [Bool.false_eq_true, false_iff] at hleap
        push_neg at hleap
        simp only [toOrdinal, hm, hdm, hb1, hb12]
        omega
      · have hb12 : daysBeforeMonth d.year 12 = 335 := by simp [daysBeforeMonth, hl]
        rw [hl] at hleap
        simp only [true_iff] at hleap
        simp only [toOrdinal, hm, hdm, hb1, hb12]
        omega

lemma addDays_spec {d : Date} (h : d.ok = true) (n : Nat) :
    (addDays d n).ok = true ∧ toOrdinal (addDays d n) = toOrdinal d + n := by
  induction n with
  | zero => simpa [addDays] using h
  | succ k ih =>
      have hs : addDays d (k + 1) = succDate (addDays d k) := by
        simp [addDays, Function.iterate_succ_apply']
      refine ⟨?_, ?_⟩
      · rw [hs]; exact succDate_ok ih.1
      · rw [hs, toOrdinal_succDate ih.1, ih.2]
        omega

/-- The weekend shift of `get_upcoming_birthdays` really lands on the
following Monday: starting from a Saturday or Sunday, adding `7 - weekday`
days gives a strictly later date, at most two days ahead, whose weekday is
Monday. -/
theorem weekendShift_is_following_monday {d : Date} (h : d.ok = true)
    (hw : 5 ≤ weekday d) :
    weekday (addDays d (7 - weekday d)) = 0 ∧
      toOrdinal d < toOrdinal (addDays d (7 - weekday d)) ∧
      toOrdinal (addDays d (7 - weekday d)) ≤ toOrdinal d + 2 := by
  obtain ⟨-, hord⟩ := addDays_spec h (7 - weekday d)
  simp only [weekday] at hw hord ⊢
  rw [hord]
  omega

/-! ## Address Book (src/models.py: AddressBook) -/

/-- An `AddressBook`: an insertion-ordered mapping from name to record,
modelled as an association list with the dict's unique-key invariant
maintained by `add_record`. -/
structure AddressBook where
  data : List (Str × Record)
deriving DecidableEq

/-- Lowercasing as `str.lower()` applies it characterwise. -/
def lowerStr (s : Str) : Str := s.map Char.toLower

/-- Python's substring test `needle in hay`. -/
def isSubstrOf (needle : Str) : Str → Bool
  | [] => needle.isEmpty
  | c :: t => needle.isPrefixOf (c :: t) || isSubstrOf needle t

/-- One iteration of the `AddressBook.search` loop body: the if/continue
chain over name, email, address, then the phone loop with its break. -/
def searchStep (q : Str) (results : List Record) (r : Record) : List Record :=
  if isSubstrOf q (lowerStr r.name) then results ++ [r]
  else if (match r.email with
           | some e => isSubstrOf q (lowerStr e)
           | none => false) then results ++ [r]
  else if (match r.address with
           | some a => isSubstrOf q (lowerStr a)
           | none => false) then results ++ [r]
  else if r.phones.any (fun p => isSubstrOf q p) then results ++ [r]
  else results

/-- `AddressBook.search(query)`: lowercases the query once, then scans the
records in dict order accumulating matches. -/
def AddressBook.search (b : AddressBook) (query : Str) : List Record :=
  let q := lowerStr query
  b.data.foldl (fun results p => searchStep q results p.2) []

/-- The match predicate of the search contract: the lowercased query occurs
in the lowercased name, lowercased email, lowercased address, or in some
phone number. -/
def matchesQuery (query : Str) (r : Record) : Bool :=
  isSubstrOf (lowerStr query) (lowerStr r.name) ||
    (match r.email with
     | some e => isSubstrOf (lowerStr query) (lowerStr e)
     | none => false) ||
    (match r.address with
     | some a => isSubstrOf (lowerStr query) (lowerStr a)
     | none => false) ||
    r.phones.any (fun p => isSubstrOf (lowerStr query) p)

/-- `date.replace(year=...)`: the source builds this year's occurrence of a
birthday; the constructor re-validates and raises on an impossible date
(February 29 in a non-leap year). -/
def dateReplaceYear (d : Date) (y : Nat) : Except Err Date :=
  if (Date.mk y d.month d.day).valid then .ok ⟨y, d.month, d.day⟩
  else .error (Err.validation ("day is out of range for month"))

/-- One iteration of the `get_upcoming_birthdays` loop: skip records without
a birthday, build this year's occurrence, keep it when it falls within
`0 ≤ delta ≤ days`, shifting a weekend congratulation date to the following
Monday in the reported string only. -/
def birthdayStep (today : Date) (days : Int) (acc : List (Str × Str))
    (p : Str × Record) : Except Err (List (Str × Str)) :=
  match p.2.birthday with
  | none => .ok acc
  | some bday => do
      let birthday_this_year ← dateReplaceYear bday today.year
      let delta : Int := (toOrdinal birthday_this_year : Int) - (toOrdinal today : Int)
      if 0 ≤ delta ∧ delta ≤ days then
        let congratulation_date :=
          if 5 ≤ weekday birthday_this_year then
            addDays birthday_this_year (7 - weekday birthday_this_year)
          else birthday_this_year
        .ok (acc ++ [(p.2.name, formatDMY congratulation_date)])
      else .ok acc

/-- `AddressBook.get_upcoming_birthdays(days)`: `today` is the clock reading
`datetime.today().date()`, passed explicitly. -/
def AddressBook.get_upcoming_birthdays (b : AddressBook) (today : Date)
    (days : Int) : Except Err (List (Str × Str)) :=
  b.data.foldlM (birthdayStep today days) []

/-! ## Notes (src/notes.py: Note, NoteBook) -/

/-- The whitespace characters `str.split()` splits on (ASCII range). -/
def isPySpace (c : Char) : Bool :=
  c = ' ' ∨ c = '\t' ∨ c = '\n' ∨ c = '\r' ∨ c = '\x0b' ∨ c = '\x0c'

/-- Python `text.split()`: the maximal whitespace-free tokens, in order. -/
def pySplit (s : Str) : List Str :=
  (s.splitOnP isPySpace).filter (fun w => !w.isEmpty)

/-- `word.startswith('#')`. -/
def startsWithHash (w : Str) : Bool :=
  match w with
  | c :: _ => c = '#'
  | [] => false

/-- `word.strip()` on a token (identity on whitespace-free tokens, applied
for faithfulness to `Note._extract_tags`). -/
def pyStrip (s : Str) : Str :=
  ((s.dropWhile isPySpace).reverse.dropWhile isPySpace).reverse

/-- `Note._extract_tags(text)`. -/
def extract_tags (text : Str) : List Str :=
  ((pySplit text).filter startsWithHash).map pyStrip

/-- A `Note`: id is `None` until the owning book assigns it. -/
structure Note where
  id : Option Nat
  text : Str
  tags : List Str
  created : DateTime
deriving DecidableEq

/-- `Note.__init__(text)`: splits the raw text into words, keeps the
`#`-initial words as tags, rejoins the rest with single spaces as the stored
text; `now` is the clock reading `datetime.now()`. -/
def mkNote (text : Str) (now : DateTime) : Note :=
  let words := pySplit text
  { id := none
    tags := words.filter (fun w => startsWithHash w)
    text := List.intercalate ((" ").data) (words.filter (fun w => !startsWithHash w))
    created := now }

/-- The document `Note.to_dict` produces. -/
structure NoteDoc where
  id : Option Nat
  text : Str
  created : Str
  tags : List Str
deriving DecidableEq

/-- `Note.to_dict`. -/
def Note.to_dict (n : Note) : NoteDoc :=
  { id := n.id, text := n.text, created := formatYMDHMS n.created, tags := n.tags }

/-- `Note.from_dict`: rebuilds through the constructor (re-splitting the
stored text), then overwrites id, created, and tags from the document.  The
constructor's `datetime.now()` reading is immediately overwritten, so the
parsed timestamp serves as the dummy argument.  `strptime` raises on a
malformed `created` string. -/
def Note.from_dict (data : NoteDoc) : Except Err Note :=
  match parseYMDHMS data.created with
  | none => .error (Err.validation ("time data does not match format"))
  | some dt =>
      let note := mkNote data.text dt
      .ok { note with id := data.id, created := dt, tags := data.tags }

/-- A `NoteBook`: the id-keyed dict plus the `next_id` counter. -/
structure NoteBook where
  data : List (Nat × Note)
  next_id : Nat
deriving DecidableEq

/-- `NoteBook.__init__`. -/
def NoteBook.empty : NoteBook := { data := [], next_id := 1 }

/-- `NoteBook.add_note`: assigns the next id, inserts, bumps the counter. -/
def NoteBook.add_note (nb : NoteBook) (note : Note) : NoteBook :=
  let note := { note with id := some nb.next_id }
  { data := nb.data ++ [(nb.next_id, note)], next_id := nb.next_id + 1 }

/-- `NoteBook.edit_note`: raises a not-found error when the id is absent;
otherwise stores `new_text` as the note's text unchanged and recomputes the
tags from `new_text`. -/
def NoteBook.edit_note (nb : NoteBook) (note_id : Nat) (new_text : Str) :
    Except Err NoteBook :=
  if nb.data.any (fun p => p.1 = note_id) then
    .ok { nb with
          data := nb.data.map (fun p =>
            if p.1 = note_id then
              (p.1, { p.2 with text := new_text, tags := extract_tags new_text })
            else p) }
  else .error (Err.notFound ("Note with this ID not found."))

/-- The document `NoteBook.to_dict` produces: `next_id` plus the notes keyed
by the decimal rendering of their ids. -/
structure NoteBookDoc where
  next_id : Nat
  notes : List (Str × NoteDoc)
deriving DecidableEq

/-- `NoteBook.to_dict`. -/
def NoteBook.to_dict (nb : NoteBook) : NoteBookDoc :=
  { next_id := nb.next_id
    notes := nb.data.map (fun p => (natToStr p.1, p.2.to_dict)) }

/-- `NoteBook.from_dict`: restores `next_id` from the document and rebuilds
each note through `Note.from_dict`, keying it by `int(note_id_str)`. -/
def NoteBook.from_dict (data : NoteBookDoc) : Except Err NoteBook := do
  let entries ← data.notes.mapM (fun p => do
    let note ← Note.from_dict p.2
    match intParse p.1 with
    | some k => pure (k, note)
    | none => Except.error (Err.validation ("invalid literal for int")))
  pure { data := entries, next_id := data.next_id }

/-- No whitespace-delimited token of `s` begins with a hash: the invariant
the spec states for stored note text. -/
def noHashTokens (s : Str) : Bool :=
  (pySplit s).all (fun w => !startsWithHash w)

/-- Constructor-normal text: rejoining its own tokens reproduces it and no
token is a tag; `Note.__init__` always produces such text. -/
def normalText (s : Str) : Bool :=
  noHashTokens s && (List.intercalate ((" ").data) (pySplit s) == s)

/-! ## Decidability plumbing and list infix helpers -/

instance {ε α : Type} [DecidableEq ε] [DecidableEq α] : DecidableEq (Except ε α) :=
  fun a b =>
    match a, b with
    | .error e, .error f => decidable_of_iff (e = f) (by simp)
    | .ok x, .ok y => decidable_of_iff (x = y) (by simp)
    | .error _, .ok _ => isFalse (by simp)
    | .ok _, .error _ => isFalse (by simp)

lemma infix_extend_left (x : Str) {s t : Str} (h : s <:+: t) : s <:+: x ++ t := by
  obtain ⟨u, v, huv⟩ := h
  exact ⟨x ++ u, v, by rw [← huv]; simp⟩

lemma infix_extend_right (x : Str) {s t : Str} (h : s <:+: t) : s <:+: t ++ x := by
  obtain ⟨u, v, huv⟩ := h
  exact ⟨u, v ++ x, by rw [← huv]; simp⟩

lemma intercalate_cons_cons (sep b c : Str) (tl : List Str) :
    List.intercalate sep (b :: c :: tl) = b ++ sep ++ List.intercalate sep (c :: tl) := by
  simp [List.intercalate, List.intersperse_cons_cons]

lemma infix_of_mem_intercalate {s : Str} (sep : Str) {l : List Str} (h : s ∈ l) :
    s <:+: List.intercalate sep l := by
  induction l with
  | nil => simp at h
  | cons a tl ih =>
      rcases List.mem_cons.mp h with rfl | hmem
      · cases tl with
        | nil => simp [List.intercalate]
        | cons c tl' =>
            rw [intercalate_cons_cons]
            exact ⟨[], sep ++ List.intercalate sep (c :: tl'), by simp⟩
      · cases tl with
        | nil => simp at hmem
        | cons c tl' =>
            rw [intercalate_cons_cons, List.append_assoc]
            exact infix_extend_left a (infix_extend_left sep (ih hmem))

lemma phone_infix_render {s : Str} {r : Record} (h : s ∈ r.phones) :
    s <:+: renderRecord r := by
  have hne : ¬ (r.phones.isEmpty = true) := by
    simp only [List.isEmpty_iff]
    exact List.ne_nil_of_mem h
  simp only [renderRecord, if_neg hne]
  exact infix_extend_right _ (infix_extend_right _ (infix_extend_right _
    (infix_extend_left _ (infix_extend_left _ (infix_of_mem_intercalate _ h)))))

lemma mkPhone_cases (s : Str) :
    (pyIsDigitStr s && s.length == 10) = true ∧ mkPhone s = .ok s ∨
      (pyIsDigitStr s && s.length == 10) = false ∧
        mkPhone s = .error (Err.validation ("Phone number must be a 10-digit string of numbers.")) := by
  by_cases hc : (pyIsDigitStr s && s.length == 10) = true
  · exact .inl ⟨hc, by rw [mkPhone, if_pos hc]⟩
  · exact .inr ⟨by simpa using hc, by rw [mkPhone, if_neg hc]⟩

/-- C1: constructing a Phone from `s` succeeds exactly when `s` is ten
decimal digits; success stores `s` unchanged, and the rendering of any
record holding `s` among its phones contains `s` verbatim. -/
theorem phone_construction_contract (s : Str) :
    ((∃ p, mkPhone s = .ok p) ↔ s.length = 10 ∧ ∀ c ∈ s, c.isDigit = true) ∧
      (∀ p, mkPhone s = .ok p → p = s) ∧
      (∀ r : Record, s ∈ r.phones → s <:+: renderRecord r) := by
  have hchar : (pyIsDigitStr s && s.length == 10) = true ↔
      s.length = 10 ∧ ∀ c ∈ s, c.isDigit = true := by
    simp only [pyIsDigitStr, Bool.and_eq_true, Bool.not_eq_true',
      List.all_eq_true, beq_iff_eq]
    constructor
    · rintro ⟨⟨-, hdig⟩, hlen⟩
      exact ⟨hlen, hdig⟩
    · rintro ⟨hlen, hdig⟩
      refine ⟨⟨?_, hdig⟩, hlen⟩
      cases s with
      | nil => simp at hlen
      | cons a t => simp [List.isEmpty]
  refine ⟨?_, ?_, fun r hr => phone_infix_render hr⟩
  · constructor
    · rintro ⟨p, hp⟩
      rcases mkPhone_cases s with ⟨hc, -⟩ | ⟨-, he⟩
      · exact hchar.mp hc
      · rw [he] at hp
        cases hp
    · intro hgood
      refine ⟨s, ?_⟩
      rw [mkPhone, if_pos (hchar.mpr hgood)]
  · intro p hp
    rcases mkPhone_cases s with ⟨-, hok⟩ | ⟨-, he⟩
    · rw [hok] at hp
      cases hp
      rfl
    · rw [he] at hp
      cases hp

/-- Witness for C1 at the phone `0501234567` from the spec's scenario. -/
theorem phone_construction_contract_witness :
    (("0501234567").data).length = 10 ∧ (∀ c ∈ ("0501234567").data, c.isDigit = true) ∧
      mkPhone (("0501234567").data) = .ok (("0501234567").data) ∧
      ("0501234567").data <:+:
        renderRecord { name := ("Anna").data, phones := [("0501234567").data],
                       birthday := none, email := none, address := none } := by
  refine ⟨by decide, by decide, ?_, ?_⟩
  · rcases ((phone_construction_contract (("0501234567").data)).1).mpr
      ⟨by decide, by decide⟩ with ⟨p, hp⟩
    have hps := (phone_construction_contract (("0501234567").data)).2.1 p hp
    rw [hp, hps]
  · exact (phone_construction_contract (("0501234567").data)).2.2 _ (by decide)

/-- C7: Note construction extracts exactly the `#`-initial whitespace tokens
as tags, in order with duplicates, and stores the remaining tokens rejoined
with single spaces; the spec's scenario evaluates accordingly. -/
theorem note_construction_contract (raw : Str) (now : DateTime) :
    (mkNote raw now).tags = (pySplit raw).filter startsWithHash ∧
      (mkNote raw now).text =
        List.intercalate ((" ").data) ((pySplit raw).filter (fun w => !startsWithHash w)) ∧
      (mkNote raw now).created = now ∧
      (mkNote (("Buy milk #shopping #urgent").data) now).tags =
        [("#shopping").data, ("#urgent").data] ∧
      (mkNote (("Buy milk #shopping #urgent").data) now).text = ("Buy milk").data := by
  refine ⟨rfl, rfl, rfl, ?_, ?_⟩
  · show (pySplit (("Buy milk #shopping #urgent").data)).filter startsWithHash = _
    decide
  · show List.intercalate ((" ").data)
      ((pySplit (("Buy milk #shopping #urgent").data)).filter (fun w => !startsWithHash w)) = _
    decide

lemma findFirstIdx_none_iff (target : Str) (l : List Str) :
    findFirstIdx target l = none ↔ target ∉ l := by
  induction l with
  | nil => simp [findFirstIdx]
  | cons a t ih =>
      rw [findFirstIdx]
      by_cases ha : a = target
      · subst ha
        simp
      · rw [if_neg ha, List.mem_cons]
        constructor
        · intro hn
          have hnone : findFirstIdx target t = none := by
            cases hx : findFirstIdx target t with
            | none => rfl
            | some j => rw [hx] at hn; simp at hn
          exact not_or.mpr ⟨fun he => ha he.symm, ih.mp hnone⟩
        · intro hn
          rw [not_or] at hn
          rw [ih.mpr hn.2]
          rfl

lemma dropWhile_ne_eq_nil_iff (target : Str) (l : List Str) :
    l.dropWhile (fun p => decide (p ≠ target)) = [] ↔ target ∉ l := by
  induction l with
  | nil => simp
  | cons a t ih =>
      rw [List.dropWhile_cons]
      by_cases ha : a = target
      · subst ha
        simp
      · have hdec : decide (a ≠ target) = true := by simp [ha]
        rw [hdec, if_pos rfl, List.mem_cons, ih]
        constructor
        · intro hn
          exact not_or.mpr ⟨fun he => ha he.symm, hn⟩
        · intro hn
          exact (not_or.mp hn).2

lemma findFirstIdx_set (target v : Str) :
    ∀ (l : List Str) (i : Nat), findFirstIdx target l = some i →
      l.set i v = l.takeWhile (fun p => decide (p ≠ target)) ++
        v :: (l.dropWhile (fun p => decide (p ≠ target))).tail := by
  intro l
  induction l with
  | nil => intro i h; simp [findFirstIdx] at h
  | cons a t ih =>
      intro i h
      by_cases ha : a = target
      · rw [findFirstIdx, if_pos ha] at h
        cases h
        subst ha
        simp [List.takeWhile_cons, List.dropWhile_cons]
      · rw [findFirstIdx, if_neg ha] at h
        cases hft : findFirstIdx target t with
        | none => rw [hft] at h; simp at h
        | some j =>
            rw [hft] at h
            simp at h
            subst h
            have hdec : decide (a ≠ target) = true := by simp [ha]
            rw [List.set_cons_succ, List.takeWhile_cons, List.dropWhile_cons, hdec,
              if_pos rfl, if_pos rfl, ih j hft, List.cons_append]

/-- The spec's reading of `editPhone`: split the phone list at the first
occurrence of `old` (everything before it differs from `old`); fail with a
not-found error when there is none; otherwise validate `new` and, on
success, replace exactly that slot, leaving prefix and suffix untouched. -/
def specEditPhone (r : Record) (old new_ : Str) : Mut Record :=
  let pre := r.phones.takeWhile (fun p => decide (p ≠ old))
  match r.phones.dropWhile (fun p => decide (p ≠ old)) with
  | [] => (some (Err.notFound ("Phone number not found.")), r)
  | _ :: post =>
      match mkPhone new_ with
      | .ok v => (none, { r with phones := pre ++ v :: post })
      | .error e => (some e, r)

/-- C8: `edit_phone` coincides with the spec's first-slot replacement; it
reports not-found exactly when no phone equals `old`; on a malformed `new`
it raises a validation error with the phone list untouched. -/
theorem edit_phone_contract (r : Record) (old new_ : Str) :
    Record.edit_phone r old new_ = specEditPhone r old new_ ∧
      ((∃ m, (Record.edit_phone r old new_).1 = some (Err.notFound m)) ↔ old ∉ r.phones) ∧
      (∀ e, old ∈ r.phones → mkPhone new_ = .error e →
        Record.edit_phone r old new_ = (some e, r)) := by
  have heq : Record.edit_phone r old new_ = specEditPhone r old new_ := by
    unfold Record.edit_phone specEditPhone Record.find_phone
    cases hf : findFirstIdx old r.phones with
    | none =>
        have hd : r.phones.dropWhile (fun p => decide (p ≠ old)) = [] :=
          (dropWhile_ne_eq_nil_iff _ _).mpr ((findFirstIdx_none_iff _ _).mp hf)
        rw [hd]
    | some i =>
        have hmem : old ∈ r.phones := by
          by_contra hn
          rw [(findFirstIdx_none_iff _ _).mpr hn] at hf
          cases hf
        cases hdw : r.phones.dropWhile (fun p => decide (p ≠ old)) with
        | nil => exact absurd hmem ((dropWhile_ne_eq_nil_iff _ _).mp hdw)
        | cons x post =>
            cases hmk : mkPhone new_ with
            | ok v =>
                have hset := findFirstIdx_set old v r.phones i hf
                rw [hdw] at hset
                simp only [List.tail_cons] at hset
                simp [hset]
            | error e => simp
  refine ⟨heq, ?_, ?_⟩
  · rw [heq]
    unfold specEditPhone
    cases hdw : r.phones.dropWhile (fun p => decide (p ≠ old)) with
    | nil =>
        exact iff_of_true ⟨("Phone number not found."), rfl⟩
          ((dropWhile_ne_eq_nil_iff _ _).mp hdw)
    | cons x post =>
        have hmem : old ∈ r.phones := by
          by_contra hn
          rw [(dropWhile_ne_eq_nil_iff _ _).mpr hn] at hdw
          cases hdw
        refine iff_of_false ?_ (by simpa using hmem)
        rintro ⟨m, hm⟩
        rcases mkPhone_cases new_ with ⟨-, hok⟩ | ⟨-, herr⟩
        · rw [hok] at hm
          simp at hm
        · rw [herr] at hm
          simp at hm
  · intro e hmem hmk
    rw [heq]
    unfold specEditPhone
    cases hdw : r.phones.dropWhile (fun p => decide (p ≠ old)) with
    | nil => exact absurd hmem ((dropWhile_ne_eq_nil_iff _ _).mp hdw)
    | cons x post => rw [hmk]

/-- A record with a duplicate phone, exercising first-slot editing. -/
def recPhones : Record :=
  { name := ("Bob").data
    phones := [("0000000000").data, ("1111111111").data, ("0000000000").data]
    birthday := none
    email := none
    address := none }

/-- Witness for C8: editing the duplicated phone replaces only the first
slot; an absent number reports not-found. -/
theorem edit_phone_contract_witness :
    Record.edit_phone recPhones (("0000000000").data) (("2222222222").data) =
      (none, { recPhones with
               phones := [("2222222222").data, ("1111111111").data, ("0000000000").data] }) ∧
      (("9999999999").data ∉ recPhones.phones) ∧
      (Record.edit_phone recPhones (("9999999999").data) (("2222222222").data)).1 =
        some (Err.notFound ("Phone number not found.")) := by
  refine ⟨?_, by decide, ?_⟩
  · rw [(edit_phone_contract recPhones (("0000000000").data) (("2222222222").data)).1]
    decide
  · rw [(edit_phone_contract recPhones (("9999999999").data) (("2222222222").data)).1]
    decide

/-- A record with an email and no address, exhibiting the silent skip of
empty setter input. -/
def recNoAddress : Record :=
  { name := ("Bob").data
    phones := []
    birthday := none
    email := some (("a@gmail.com").data)
    address := none }

/-- C9 counterexample: `set_address("")` (and `set_email("")`) raises nothing
and stores nothing — the record is returned unchanged with its address still
absent, contradicting fail-or-overwrite. -/
theorem set_empty_silently_ignored_counterexample :
    Record.set_address recNoAddress [] = (none, recNoAddress) ∧
      recNoAddress.address = none ∧
      Record.set_email recNoAddress [] = (none, recNoAddress) ∧
      recNoAddress.email = some (("a@gmail.com").data) := by
  exact ⟨rfl, rfl, rfl, rfl⟩

/-- C9 amended: for nonempty input, `set_email` validates and overwrites (a
malformed value raises a validation error and changes nothing) and
`set_address` always overwrites (every nonempty address is valid); the empty
string is silently ignored by both, with no error and no change. -/
theorem set_email_address_contract (r : Record) (s : Str) (h : s ≠ []) :
    (emailMatch s = true → Record.set_email r s = (none, { r with email := some s })) ∧
      (emailMatch s = false →
        Record.set_email r s = (some (Err.validation ("Invalid email format")), r)) ∧
      Record.set_address r s = (none, { r with address := some s }) ∧
      Record.set_email r [] = (none, r) ∧
      Record.set_address r [] = (none, r) := by
  have hne : s.isEmpty = false := by
    cases s with
    | nil => exact absurd rfl h
    | cons a t => rfl
  refine ⟨?_, ?_, ?_, rfl, rfl⟩
  · intro hm
    rw [Record.set_email, hne]
    simp only [Bool.false_eq_true, if_false, mkEmail, hm, if_true, reduceIte]
  · intro hm
    rw [Record.set_email, hne]
    simp only [Bool.false_eq_true, if_false, mkEmail, hm, reduceIte]
  · rw [Record.set_address, hne]
    simp only [Bool.false_eq_true, if_false, mkAddress, hne, reduceIte]

/-- Witness for C9's amended contract on a valid email and address. -/
theorem set_email_address_contract_witness :
    Record.set_email (Record.init (("Kate").data)) (("a@gmail.com").data) =
      (none, { Record.init (("Kate").data) with email := some (("a@gmail.com").data) }) ∧
      Record.set_address (Record.init (("Kate").data)) (("Main street 1").data) =
        (none, { Record.init (("Kate").data) with address := some (("Main street 1").data) }) := by
  exact ⟨(set_email_address_contract (Record.init (("Kate").data)) (("a@gmail.com").data)
            (by decide)).1 (by decide),
          (set_email_address_contract (Record.init (("Kate").data)) (("Main street 1").data)
            (by decide)).2.2.1⟩

lemma searchStep_eq (q : Str) (acc : List Record) (r : Record) :
    searchStep q acc r =
      acc ++ (if (isSubstrOf q (lowerStr r.name) ||
                  (match r.email with
                   | some e => isSubstrOf q (lowerStr e)
                   | none => false) ||
                  (match r.address with
                   | some a => isSubstrOf q (lowerStr a)
                   | none => false) ||
                  r.phones.any (fun p => isSubstrOf q p)) = true
              then [r] else []) := by
  cases h1 : isSubstrOf q (lowerStr r.name) <;>
    cases h2 : (match r.email with
                | some e => isSubstrOf q (lowerStr e)
                | none => false) <;>
    cases h3 : (match r.address with
                | some a => isSubstrOf q (lowerStr a)
                | none => false) <;>
    cases h4 : r.phones.any (fun p => isSubstrOf q p) <;>
    simp [searchStep, h1, h2, h3, h4]

lemma search_eq_filter (b : AddressBook) (query : Str) :
    b.search query = (b.data.map Prod.snd).filter (matchesQuery query) := by
  suffices hgen : ∀ (l : List (Str × Record)) (acc : List Record),
      l.foldl (fun results p => searchStep (lowerStr query) results p.2) acc =
        acc ++ (l.map Prod.snd).filter (matchesQuery query) by
    simpa [AddressBook.search] using hgen b.data []
  intro l
  induction l with
  | nil => intro acc; simp
  | cons p t ih =>
      intro acc
      rw [List.foldl_cons, searchStep_eq, ih]
      rw [List.map_cons, List.filter_cons]
      simp only [matchesQuery, List.append_assoc]
      split <;> simp

/-- C6: `search(query)` returns exactly the records whose lowercased name,
lowercased email, lowercased address, or some phone number contains the
lowercased query as a substring, in book order; with the dict's unique keys
(each keyed by its record's name) every matching record appears once. -/
theorem search_contract (b : AddressBook) (query : Str)
    (hkeys : (b.data.map Prod.fst).Nodup)
    (hconsist : ∀ p ∈ b.data, p.2.name = p.1) :
    b.search query = (b.data.map Prod.snd).filter (matchesQuery query) ∧
      ((b.search query).map Record.name).Nodup := by
  refine ⟨search_eq_filter b query, ?_⟩
  rw [search_eq_filter]
  have hsub : List.Sublist
      (((b.data.map Prod.snd).filter (matchesQuery query)).map Record.name)
      ((b.data.map Prod.snd).map Record.name) :=
    (List.filter_sublist _).map _
  apply List.Nodup.sublist hsub
  rw [List.map_map]
  have hmapeq : b.data.map (Record.name ∘ Prod.snd) = b.data.map Prod.fst :=
    List.map_congr_left (fun p hp => hconsist p hp)
  rw [hmapeq]
  exact hkeys

/-- The one-contact book of the spec's search scenario. -/
def bookGmail : AddressBook :=
  { data := [((("Anna").data),
      { name := ("Anna").data
        phones := [("0501234567").data]
        birthday := none
        email := some (("a@gmail.com").data)
        address := none })] }

/-- Witness for C6: searching `gmail` in a one-contact book whose email is
`a@gmail.com` returns exactly that contact. -/
theorem search_contract_witness :
    AddressBook.search bookGmail (("gmail").data) =
      [{ name := ("Anna").data
         phones := [("0501234567").data]
         birthday := none
         email := some (("a@gmail.com").data)
         address := none }] := by
  rw [(search_contract bookGmail (("gmail").data) (by decide) (by decide)).1]
  decide

/-- C10: the empty query matches every record, so `search("")` returns the
whole book, one entry per stored record, rather than failing or returning
nothing. -/
theorem search_empty_query_returns_all (b : AddressBook) :
    b.search [] = b.data.map Prod.snd := by
  rw [search_eq_filter]
  have hall : ∀ r, matchesQuery [] r = true := by
    intro r
    have hsub : ∀ h : Str, isSubstrOf [] h = true := by
      intro h
      cases h <;> simp [isSubstrOf, List.isPrefixOf]
    simp [matchesQuery, lowerStr, hsub]
  exact List.filter_eq_self.mpr (fun a _ => hall a)

lemma ok_bind {α β : Type} (a : α) (f : α → Except Err β) :
    (Except.ok a : Except Err α) >>= f = f a := rfl

lemma mkPhone_ok_of_wf {p : Str} (h : (pyIsDigitStr p && p.length == 10) = true) :
    mkPhone p = .ok p := by
  rw [mkPhone, if_pos h]

lemma foldlM_add_phone (ps : List Str) :
    ∀ (r : Record), (∀ p ∈ ps, mkPhone p = .ok p) →
      ps.foldlM (fun r p => mutE (r.add_phone p)) r = .ok { r with phones := r.phones ++ ps } := by
  induction ps with
  | nil =>
      intro r _
      show pure r = Except.ok { r with phones := r.phones ++ [] }
      rw [List.append_nil]
      rfl
  | cons p ps ih =>
      intro r h
      have hp := h p (by simp)
      rw [List.foldlM_cons]
      have hstep : mutE (r.add_phone p) = .ok { r with phones := r.phones ++ [p] } := by
        rw [Record.add_phone, hp]
        rfl
      rw [hstep, ok_bind, ih _ (fun x hx => h x (List.mem_cons_of_mem p hx))]
      simp

lemma formatDMY_isEmpty (d : Date) : (formatDMY d).isEmpty = false := by
  simp [formatDMY, pad2]

lemma emailMatch_nil : emailMatch [] = false := rfl

lemma stepOptional_birthday (rc : Record) {b : Date} (hb : b.valid = true) :
    stepOptional Record.add_birthday rc (some (formatDMY b)) =
      .ok { rc with birthday := some b } := by
  rw [stepOptional, formatDMY_isEmpty b]
  show mutE (rc.add_birthday (formatDMY b)) = _
  rw [Record.add_birthday, mkBirthday, parseDMY_formatDMY hb]
  rfl

lemma stepOptional_email (rc : Record) {e : Str} (he : emailMatch e = true) :
    stepOptional Record.set_email rc (some e) = .ok { rc with email := some e } := by
  have hene : e.isEmpty = false := by
    cases e with
    | nil => rw [emailMatch_nil] at he; cases he
    | cons a t => rfl
  rw [stepOptional, hene]
  show mutE (rc.set_email e) = _
  rw [Record.set_email, hene]
  show mutE (match mkEmail e with
    | .ok v => (none, { rc with email := some v })
    | .error er => (some er, rc)) = _
  rw [mkEmail, if_pos he]
  rfl

lemma stepOptional_address (rc : Record) {a : Str} (ha : a.isEmpty = false) :
    stepOptional Record.set_address rc (some a) = .ok { rc with address := some a } := by
  rw [stepOptional, ha]
  show mutE (rc.set_address a) = _
  rw [Record.set_address, ha]
  show mutE (match mkAddress a with
    | .ok v => (none, { rc with address := some v })
    | .error er => (some er, rc)) = _
  rw [mkAddress, ha]
  rfl

/-- C2: serializing a well-formed record and deserializing the document
reproduces the record exactly — same name, phones in order, birthday, email,
and address — with every validator re-accepting its value. -/
theorem record_roundtrip (r : Record) (h : r.wf = true) :
    Record.from_dict (Record.to_dict r) = .ok r := by
  obtain ⟨nm, ps, bd, em, ad⟩ := r
  simp only [Record.wf, Bool.and_eq_true] at h
  obtain ⟨⟨⟨hph, hbd⟩, hem⟩, had⟩ := h
  rw [Record.from_dict]
  have hphones : ∀ p ∈ ps, mkPhone p = .ok p := by
    intro p hp
    rw [List.all_eq_true] at hph
    exact mkPhone_ok_of_wf (hph p hp)
  rw [show (Record.to_dict ⟨nm, ps, bd, em, ad⟩).phones = ps from rfl,
    show (Record.to_dict ⟨nm, ps, bd, em, ad⟩).name = nm from rfl,
    show (Record.to_dict ⟨nm, ps, bd, em, ad⟩).birthday = bd.map formatDMY from rfl,
    show (Record.to_dict ⟨nm, ps, bd, em, ad⟩).email = em from rfl,
    show (Record.to_dict ⟨nm, ps, bd, em, ad⟩).address = ad from rfl]
  rw [foldlM_add_phone ps (Record.init nm) hphones, ok_bind]
  simp only [Record.init, List.nil_append]
  have hbstep : stepOptional Record.add_birthday (⟨nm, ps, none, none, none⟩ : Record)
      (bd.map formatDMY) = .ok (⟨nm, ps, bd, none, none⟩ : Record) := by
    cases bd with
    | none => rfl
    | some b => exact stepOptional_birthday _ hbd
  rw [hbstep, ok_bind]
  have hestep : stepOptional Record.set_email (⟨nm, ps, bd, none, none⟩ : Record) em =
      .ok (⟨nm, ps, bd, em, none⟩ : Record) := by
    cases em with
    | none => rfl
    | some e => exact stepOptional_email _ hem
  rw [hestep, ok_bind]
  have hastep : stepOptional Record.set_address (⟨nm, ps, bd, em, none⟩ : Record) ad =
      .ok (⟨nm, ps, bd, em, ad⟩ : Record) := by
    cases ad with
    | none => rfl
    | some a =>
        refine stepOptional_address _ ?_
        cases a with
        | nil => exact Bool.noConfusion had
        | cons c t => rfl
  rw [hastep, ok_bind]
  rfl

/-- A fully populated well-formed record. -/
def recFull : Record :=
  { name := ("Anna").data
    phones := [("0501234567").data, ("0937654321").data]
    birthday := some ⟨1990, 3, 15⟩
    email := some (("a@gmail.com").data)
    address := some (("Main street 1").data) }

/-- Witness for C2 on a record carrying every optional field. -/
theorem record_roundtrip_witness :
    recFull.wf = true ∧ Record.from_dict (Record.to_dict recFull) = .ok recFull :=
  ⟨by decide, record_roundtrip recFull (by decide)⟩

/-- The spec's reading of one `upcomingBirthdays` entry: a record with a
birthday is reported exactly when this year's occurrence of its month/day
lies 0 to `days` days from today, and the reported date is the occurrence,
weekend-shifted to the following Monday. -/
def specBirthdayEntry (today : Date) (days : Int) (r : Record) : Option (Str × Str) :=
  match r.birthday with
  | none => none
  | some bd =>
      let occ : Date := ⟨today.year, bd.month, bd.day⟩
      let delta : Int := (toOrdinal occ : Int) - (toOrdinal today : Int)
      if 0 ≤ delta ∧ delta ≤ days then
        some (r.name, formatDMY (if 5 ≤ weekday occ then addDays occ (7 - weekday occ) else occ))
      else none

/-- A record's birthday is representable in this year: valid, and not a
February 29 when the current year is not a leap year (the unguarded
`date.replace` failure mode). -/
def birthdayFeasible (todayYear : Nat) (r : Record) : Bool :=
  match r.birthday with
  | none => true
  | some bd =>
      bd.valid && (!(decide (bd.month = 2) && decide (bd.day = 29)) || isLeap todayYear)

lemma daysInMonth_ne_two {y y' m : Nat} (hm : ¬ m = 2) :
    daysInMonth y m = daysInMonth y' m := by
  unfold daysInMonth
  rw [if_neg hm, if_neg hm]

lemma daysInMonth_feb (y : Nat) : daysInMonth y 2 = if isLeap y then 29 else 28 := by
  unfold daysInMonth
  rw [if_pos rfl]

lemma replaceYear_valid {today bd : Date} (ht : today.valid = true)
    (hb : bd.valid = true)
    (hfeas : (!(decide (bd.month = 2) && decide (bd.day = 29)) || isLeap today.year) = true) :
    (Date.mk today.year bd.month bd.day).valid = true := by
  obtain ⟨hty1, hty2, -, -, -, -⟩ := date_valid_bounds ht
  obtain ⟨-, -, hm1, hm2, hd1, hd2⟩ := date_valid_bounds hb
  simp only [Date.valid, Date.ok, Bool.and_eq_true, decide_eq_true_eq]
  refine ⟨⟨⟨⟨⟨hty1, hm1⟩, hm2⟩, hd1⟩, ?_⟩, hty2⟩
  by_cases hm2' : bd.month = 2
  · rw [hm2', daysInMonth_feb]
    rw [hm2', daysInMonth_feb] at hd2
    by_cases hd29 : bd.day = 29
    · have hlp : isLeap today.year = true := by
        simp only [hm2', hd29] at hfeas
        simpa using hfeas
      rw [hlp]
      simp only [if_true, reduceIte]
      omega
    · revert hd2
      split <;> split <;> omega
  · rw [@daysInMonth_ne_two today.year bd.year bd.month hm2']
    exact hd2

lemma birthdayStep_ok {today : Date} (days : Int) (acc : List (Str × Str))
    (p : Str × Record) (ht : today.valid = true)
    (hf : birthdayFeasible today.year p.2 = true) :
    birthdayStep today days acc p = .ok (acc ++ (specBirthdayEntry today days p.2).toList) := by
  cases hb : p.2.birthday with
  | none => simp [birthdayStep, specBirthdayEntry, hb]
  | some bd =>
      unfold birthdayFeasible at hf
      rw [hb] at hf
      rw [Bool.and_eq_true] at hf
      have hocc : (Date.mk today.year bd.month bd.day).valid = true :=
        replaceYear_valid ht hf.1 hf.2
      simp only [birthdayStep, specBirthdayEntry, hb, dateReplaceYear]
      rw [if_pos hocc, ok_bind]
      split <;> simp

/-- C5: with every stored birthday representable in today's year (no
February 29 in a non-leap year — `date.replace` would raise there),
`get_upcoming_birthdays` returns exactly the spec entries: a record is
reported iff this year's occurrence of its birthday lies 0..days days from
today (eligibility on the unshifted date), and the weekend shift by
`7 - weekday` lands on the following Monday — a strictly later date, at most
two days ahead, with weekday Monday. -/
theorem upcoming_birthdays_contract (b : AddressBook) (today : Date) (days : Int)
    (ht : today.valid = true)
    (hf : ∀ p ∈ b.data, birthdayFeasible today.year p.2 = true) :
    b.get_upcoming_birthdays today days =
      .ok (b.data.filterMap (fun p => specBirthdayEntry today days p.2)) ∧
      (∀ occ : Date, occ.ok = true → 5 ≤ weekday occ →
        weekday (addDays occ (7 - weekday occ)) = 0 ∧
          toOrdinal occ < toOrdinal (addDays occ (7 - weekday occ)) ∧
          toOrdinal (addDays occ (7 - weekday occ)) ≤ toOrdinal occ + 2) := by
  refine ⟨?_, fun occ ho hw => weekendShift_is_following_monday ho hw⟩
  unfold AddressBook.get_upcoming_birthdays
  suffices hgen : ∀ (l : List (Str × Record)) (acc : List (Str × Str)),
      (∀ p ∈ l, birthdayFeasible today.year p.2 = true) →
      l.foldlM (birthdayStep today days) acc =
        .ok (acc ++ l.filterMap (fun p => specBirthdayEntry today days p.2)) by
    simpa using hgen b.data [] hf
  intro l
  induction l with
  | nil =>
      intro acc _
      simp only [List.foldlM_nil, List.filterMap_nil, List.append_nil]
      rfl
  | cons p t ih =>
      intro acc h
      rw [List.foldlM_cons, birthdayStep_ok days acc p ht (h p (by simp)), ok_bind,
        ih _ (fun x hx => h x (List.mem_cons_of_mem p hx))]
      rw [List.filterMap_cons]
      cases specBirthdayEntry today days p.2 <;> simp

/-- A one-contact book with a birthday whose 2026 occurrence (March 15) is a
Sunday. -/
def bookBirthday : AddressBook :=
  { data := [((("Anna").data),
      { name := ("Anna").data
        phones := []
        birthday := some ⟨1990, 3, 15⟩
        email := none
        address := none })] }

/-- Witness for C5: on 10.03.2026 with a 7-day window, Anna's birthday
(15.03.2026, a Sunday) is reported with the congratulation date shifted to
Monday 16.03.2026. -/
theorem upcoming_birthdays_contract_witness :
    AddressBook.get_upcoming_birthdays bookBirthday ⟨2026, 3, 10⟩ 7 =
      .ok [((("Anna").data), (("16.03.2026").data))] := by
  rw [(upcoming_birthdays_contract bookBirthday ⟨2026, 3, 10⟩ 7 (by decide) (by decide)).1]
  decide

/-- A fixed clock reading for note constructions. -/
def dtSample : DateTime := ⟨⟨2024, 1, 1⟩, 12, 0, 0⟩

/-- The book obtained by adding the note `a` to an empty book. -/
def nbOne : NoteBook := NoteBook.empty.add_note (mkNote (("a").data) dtSample)

/-- The book after `edit_note(1, "a #b")`: the stored text keeps the `#b`
token while the tags are recomputed. -/
def nbEdited : NoteBook :=
  { data := [(1, { id := some 1
                   text := ("a #b").data
                   tags := [("#b").data]
                   created := dtSample })]
    next_id := 2 }

/-- C4 (code evaluation at the failing input): after `add("a")` then
`edit_note(1, "a #b")` the stored text is the full `a #b`, still containing
the tag token `#b` — the all-texts-tag-free invariant is false on the edited
book — whereas construction from the same raw text strips the token (text
`a`). -/
theorem edit_note_divergence :
    NoteBook.edit_note nbOne 1 (("a #b").data) = .ok nbEdited ∧
      nbEdited.data.all (fun p => noHashTokens p.2.text) = false ∧
      noHashTokens (mkNote (("a #b").data) dtSample).text = true ∧
      (mkNote (("a #b").data) dtSample).text = ("a").data ∧
      nbEdited.data.map (fun p => p.2.tags) = [[("#b").data]] := by decide

/-- Well-formedness of a note book as construction alone maintains it:
every stored text is constructor-normal and every timestamp is valid. -/
def NoteBook.wf (nb : NoteBook) : Bool :=
  nb.data.all (fun p => normalText p.2.text && p.2.created.valid)

lemma note_from_to (n : Note) (hn : normalText n.text = true)
    (hc : n.created.valid = true) : Note.from_dict n.to_dict = .ok n := by
  obtain ⟨id?, tx, tg, cr⟩ := n
  simp only [Note.to_dict] at hc ⊢
  simp only [Note.from_dict]
  rw [parseYMDHMS_formatYMDHMS hc]
  show Except.ok { mkNote tx cr with id := id?, created := cr, tags := tg } =
    Except.ok (⟨id?, tx, tg, cr⟩ : Note)
  have htext : (mkNote tx cr).text = tx := by
    unfold normalText at hn
    rw [Bool.and_eq_true] at hn
    have hfilter : (pySplit tx).filter (fun w => !startsWithHash w) = pySplit tx := by
      refine List.filter_eq_self.mpr ?_
      intro w hw
      rw [noHashTokens, List.all_eq_true] at hn
      · exact hn.1 w hw
    show List.intercalate ((" ").data) ((pySplit tx).filter (fun w => !startsWithHash w)) = tx
    rw [hfilter]
    exact eq_of_beq hn.2
  show Except.ok (⟨id?, (mkNote tx cr).text, tg, cr⟩ : Note) = _
  rw [htext]

lemma mapM_notes (l : List (Nat × Note))
    (h : ∀ p ∈ l, normalText p.2.text = true ∧ p.2.created.valid = true) :
    (l.map (fun p => (natToStr p.1, p.2.to_dict))).mapM (fun p => do
        let note ← Note.from_dict p.2
        match intParse p.1 with
        | some k => pure (k, note)
        | none => Except.error (Err.validation ("invalid literal for int"))) = .ok l := by
  induction l with
  | nil => rfl
  | cons p t ih =>
      rw [List.map_cons, List.mapM_cons]
      obtain ⟨hnorm, hcr⟩ := h p (by simp)
      rw [show ((natToStr p.1, p.2.to_dict).2 : NoteDoc) = p.2.to_dict from rfl]
      rw [note_from_to p.2 hnorm hcr, ok_bind]
      rw [show ((natToStr p.1, p.2.to_dict).1 : Str) = natToStr p.1 from rfl]
      rw [intParse_natToStr p.1]
      rw [ih (fun x hx => h x (List.mem_cons_of_mem p hx))]
      rfl

/-- C3 counterexample: the note book reachable by `add("a")` then
`edit_note(1, "a #b")` does not round-trip — deserializing its serialized
form rebuilds the note through the constructor, which strips the `#b` token
the edit left in the text, so the text comes back as `a`, not `a #b`. -/
theorem notebook_roundtrip_counterexample :
    NoteBook.edit_note nbOne 1 (("a #b").data) = .ok nbEdited ∧
      NoteBook.from_dict (NoteBook.to_dict nbEdited) =
        .ok { data := [(1, { id := some 1
                             text := ("a").data
                             tags := [("#b").data]
                             created := dtSample })]
              next_id := 2 } ∧
      ¬ (NoteBook.from_dict (NoteBook.to_dict nbEdited) = .ok nbEdited) := by decide

/-- C3 amended: for every note book whose stored texts are in constructor
form (whitespace-normalized, no `#`-initial tokens) and whose timestamps are
valid — as add-only books are — serializing and deserializing reproduces
`next_id` and every note's id, text, tags, and created timestamp exactly. -/
theorem notebook_roundtrip (nb : NoteBook) (h : nb.wf = true) :
    NoteBook.from_dict (NoteBook.to_dict nb) = .ok nb := by
  obtain ⟨data, nid⟩ := nb
  rw [NoteBook.wf, List.all_eq_true] at h
  rw [NoteBook.to_dict, NoteBook.from_dict]
  have hper : ∀ p ∈ data, normalText p.2.text = true ∧ p.2.created.valid = true := by
    intro p hp
    have := h p hp
    rwa [Bool.and_eq_true] at this
  rw [show ((⟨nid, data.map (fun p => (natToStr p.1, p.2.to_dict))⟩ : NoteBookDoc)).notes =
      data.map (fun p => (natToStr p.1, p.2.to_dict)) from rfl]
  rw [mapM_notes data hper, ok_bind]
  rfl

/-- An add-only book for the C3 witness. -/
def nbNormal : NoteBook :=
  (NoteBook.empty.add_note (mkNote (("Buy milk #shopping").data) dtSample)).add_note
    (mkNote (("call mom").data) dtSample)

/-- Witness for C3's amended round trip on an add-only two-note book. -/
theorem notebook_roundtrip_witness :
    nbNormal.wf = true ∧ NoteBook.from_dict (NoteBook.to_dict nbNormal) = .ok nbNormal :=
  ⟨by decide, notebook_roundtrip nbNormal (by decide)⟩

/-- A book holding a February 29 birthday. -/
def bookFeb29 : AddressBook :=
  { data := [((("Leap").data),
      { name := ("Leap").data
        phones := []
        birthday := some ⟨2024, 2, 29⟩
        email := none
        address := none })] }

/-- C5 counterexample: with a February 29 birthday and a non-leap current
year, `date.replace(year=...)` raises, so `get_upcoming_birthdays` produces
an error instead of deciding the record's inclusion — the unqualified
include-iff-in-window claim fails on this book. -/
theorem upcoming_birthdays_feb29_counterexample :
    AddressBook.get_upcoming_birthdays bookFeb29 ⟨2025, 3, 1⟩ 7 =
      .error (Err.validation ("day is out of range for month")) := by decide
